import Mathlib

/-!
# Verification of the WICG Observable reference implementation

Shallow embedding of `src/impl/observable.js` (and its duplicate drafts
`src/impl/observable.ts`, `src/unnamed/part_000`): the `Subscriber`
delivery gate, `Observable.subscribe`, the operators `take`, `flatMap`,
`switchMap`, the terminal reducer `reduce`, and the async-iterator pull
bridge.

The execution model of the source is single-threaded and cooperative:
all delivery happens through direct synchronous calls.  Each component
is embedded as an explicit state machine whose `step` function is a
line-by-line translation of the corresponding JS handler; a whole
interaction is a list of operations folded over the state, producing
the list of observable events (handler invocations, deliveries) in the
order the source would perform them.

Host primitives used by the source (`AbortController` / `AbortSignal` /
`EventTarget`) are modelled with their standard DOM semantics, which the
source relies on:
* abort-event listeners are dispatched in insertion order;
* a listener added to an *already aborted* signal is never invoked
  (the abort event fired in the past and is not replayed);
* listeners registered with the once flag run at most once;
* `AbortSignal.all` does not exist in any host, so `useSignalAll`
  (observable.js 668-684) always takes its fallback branch, which merges
  signals by registering plain abort listeners on each input.
-/

namespace Obs

/-- State of one `Subscriber` (observable.js 619-665).

* `active` is the private `#active` field.
* `ownAborted` is `#abortController.signal.aborted`.
* `teardowns` are the abort listeners registered on
  `#abortController.signal` by `addTeardown` (observable.js 653-661),
  kept in insertion order, each identified by a numeric id.
* `mergedAborted` is `#signal.aborted`, where `#signal` is
  `useSignalAll([options.signal, ownSignal])` when an outer signal was
  supplied, and `ownSignal` itself otherwise.
* `extLinked` records whether a *future* abort of the supplied outer
  signal would propagate into `#signal`: the fallback of `useSignalAll`
  registers an abort listener on the outer signal, and a listener added
  to an already-aborted signal never fires, so `extLinked` is false when
  the outer signal was already aborted at construction time. -/
structure SubState where
  active : Bool
  ownAborted : Bool
  teardowns : List Nat
  mergedAborted : Bool
  extLinked : Bool
  deriving Repr, DecidableEq

/-- Translation of `Subscriber.isActive` (observable.js 626-628):
`this.#active && !this.signal.aborted`. -/
def SubState.isActive (s : SubState) : Bool :=
  s.active && !s.mergedAborted

/-- The `Subscriber` constructor (observable.js 629-633):
`#signal = signal ? useSignalAll([signal, ownSignal]) : ownSignal`.
`extAborted = none` means no `options.signal` was supplied;
`some b` means one was supplied whose aborted state is `b`.  In the
fallback of `useSignalAll`, adding an abort listener to an
already-aborted outer signal registers a listener that will never fire,
so the merged `#signal` starts un-aborted in every case and an
already-aborted outer signal is never noticed (`extLinked = false`). -/
def newSubscriber (extAborted : Option Bool) : SubState :=
  { active := true
    ownAborted := false
    teardowns := []
    mergedAborted := false
    extLinked := match extAborted with
      | none => false
      | some b => !b }

/-- Observable events of one subscriber interaction, in the order the
source produces them.
* `nextInv v` — the user observer's `next` handler runs with `v`;
* `errInv` — the user observer's `error` handler runs;
* `compInv` — the user observer's `complete` handler runs;
* `scopeFired` — the subscriber's `#signal` (its cancellation scope)
  transitions to aborted;
* `tdRun i` — teardown `i` runs. -/
inductive Ev where
  | nextInv (v : Nat)
  | errInv
  | compInv
  | scopeFired
  | tdRun (i : Nat)
  deriving Repr, DecidableEq

/-- Operations a producer or user can perform on one subscriber.  A
re-entrant call made by a handler while that handler is running is
represented by the same operation appearing later in the list: the
source flips `#active = false` *before* invoking the handler, so a
nested call executes against exactly the state a subsequent flattened
call would see (the only difference, the relative order of teardown
runs started by a nested `addTeardown`, involves no handler
invocation). -/
inductive Op where
  | next (v : Nat)
  | error
  | complete
  | addTeardown (i : Nat)
  | abortSignal
  deriving Repr, DecidableEq

/-- Firing `#abortController.abort()` at the end of `error()` and
`complete()` (observable.js 643 and 650): the own signal aborts; its
listeners run in insertion order.  The `useSignalAll` merge listener
was registered in the constructor, before any teardown, so `#signal`
fires first (when no outer signal was supplied, `#signal` *is* the own
signal and likewise fires here); then each teardown runs once and the
listener list is cleared (once-only listeners). -/
def fireOwn (s : SubState) : SubState × List Ev :=
  ({ s with ownAborted := true, mergedAborted := true,
            extLinked := false, teardowns := [] },
   Ev.scopeFired :: s.teardowns.map Ev.tdRun)

/-- One operation on a subscriber (observable.js 634-661, plus the
supplied outer signal firing), returning the new state and the events
emitted. -/
def subStep (s : SubState) : Op → SubState × List Ev
  | .next v =>
    -- next(value) { if (this.isActive) { this._observer.next(value); } }
    if s.isActive then (s, [Ev.nextInv v]) else (s, [])
  | .error =>
    -- error(e) { if (this.isActive) { this.#active = false;
    --   this._observer.error(e); this.#abortController.abort(); } }
    if s.isActive then
      let p := fireOwn { s with active := false }
      (p.1, Ev.errInv :: p.2)
    else (s, [])
  | .complete =>
    -- complete() { if (this.isActive) { this.#active = false;
    --   this._observer.complete(); this.#abortController.abort(); } }
    if s.isActive then
      let p := fireOwn { s with active := false }
      (p.1, Ev.compInv :: p.2)
    else (s, [])
  | .addTeardown i =>
    -- addTeardown(t) { if (this.isActive) { ...add abort listener, once
    --   ... } else { t(); } }
    if s.isActive then ({ s with teardowns := s.teardowns ++ [i] }, [])
    else (s, [Ev.tdRun i])
  | .abortSignal =>
    -- The supplied options.signal fires.  If its listener registration
    -- succeeded (the signal was not yet aborted at construction), the
    -- useSignalAll merge handler aborts the merged #signal.  The own
    -- #abortController is NOT aborted by this, so teardowns do not run.
    if s.extLinked then
      ({ s with mergedAborted := true, extLinked := false }, [Ev.scopeFired])
    else (s, [])

/-- Run a list of operations from a state, collecting emitted events. -/
def subRun (s : SubState) : List Op → SubState × List Ev
  | [] => (s, [])
  | op :: rest =>
    let p := subStep s op
    let q := subRun p.1 rest
    (q.1, p.2 ++ q.2)

/-- Final state of a run. -/
def subRunState (s : SubState) (l : List Op) : SubState := (subRun s l).1

/-- Events of a run. -/
def subRunEvents (s : SubState) (l : List Op) : List Ev := (subRun s l).2

/-- A handler-invocation event: user code of `next`, `error` or
`complete` ran. -/
def Ev.isInv : Ev → Bool
  | .nextInv _ => true
  | .errInv => true
  | .compInv => true
  | _ => false

/-- A closing event: a terminal handler invocation, or the cancellation
scope firing. -/
def Ev.isClosing : Ev → Bool
  | .errInv => true
  | .compInv => true
  | .scopeFired => true
  | _ => false

/-- Checks an event list against the lifetime discipline: once a
closing event has occurred, no further handler invocation occurs.  The
boolean argument carries whether a closing event has been seen. -/
def guardOk : Bool → List Ev → Bool
  | _, [] => true
  | closed, e :: rest =>
    if e.isClosing then !(closed && e.isInv) && guardOk true rest
    else if e.isInv then !closed && guardOk closed rest
    else guardOk closed rest

lemma subRun_cons (s : SubState) (op : Op) (rest : List Op) :
    subRun s (op :: rest) =
      ((subRun (subStep s op).1 rest).1,
        (subStep s op).2 ++ (subRun (subStep s op).1 rest).2) := rfl

/-- Once a subscriber is not active, no later operation ever invokes a
handler: either `#active` is already false (it is never reset), or the
merged signal is aborted (it never un-aborts). -/
lemma inactive_no_inv (l : List Op) (s : SubState) (h : s.isActive = false) :
    ∀ e ∈ subRunEvents s l, e.isInv = false := by
  induction l generalizing s with
  | nil => simp [subRunEvents, subRun]
  | cons op rest ih =>
    have hstep : (subStep s op).1.isActive = false ∧
        ∀ e ∈ (subStep s op).2, e.isInv = false := by
      cases op with
      | next v => simp [subStep, h]
      | error => simp [subStep, h]
      | complete => simp [subStep, h]
      | addTeardown i => simp [subStep, h, Ev.isInv]
      | abortSignal =>
        by_cases hl : s.extLinked
        · constructor
          · simp [subStep, hl, SubState.isActive]
          · simp [subStep, hl, Ev.isInv]
        · simp only [subStep, hl]
          simp [h, Ev.isInv]
    intro e he
    rw [subRunEvents, subRun_cons] at he
    simp only [List.mem_append] at he
    rcases he with he | he
    · exact hstep.2 e he
    · exact ih (subStep s op).1 hstep.1 e he

/-- A list without handler invocations passes the guard with any flag. -/
lemma guardOk_of_no_inv (evs : List Ev) (h : ∀ e ∈ evs, e.isInv = false) :
    ∀ b, guardOk b evs = true := by
  induction evs with
  | nil => intro b; rfl
  | cons e rest ih =>
    intro b
    have he : e.isInv = false := h e (by simp)
    have hrest : ∀ x ∈ rest, x.isInv = false := fun x hx => h x (by simp [hx])
    by_cases hc : e.isClosing
    · simp [guardOk, hc, he, ih hrest true]
    · simp [guardOk, hc, he, ih hrest b]

/-- Every run of a subscriber satisfies the lifetime discipline: after
the first closing event, no handler is invoked again. -/
lemma subRun_guardOk (l : List Op) (s : SubState) :
    guardOk false (subRunEvents s l) = true := by
  induction l generalizing s with
  | nil => rfl
  | cons op rest ih =>
    by_cases h : s.isActive
    · cases op with
      | next v =>
        rw [subRunEvents, subRun_cons]
        simp only [subStep, h, if_pos]
        have := ih s
        simp [guardOk, Ev.isClosing, Ev.isInv, subRunEvents] at this ⊢
        exact this
      | error =>
        rw [subRunEvents, subRun_cons]
        simp only [subStep, h, if_pos]
        have hrest : ∀ e ∈ subRunEvents (fireOwn { s with active := false }).1 rest,
            e.isInv = false := by
          apply inactive_no_inv
          simp [fireOwn, SubState.isActive]
        have hall : ∀ e ∈ (fireOwn { s with active := false }).2 ++
            subRunEvents (fireOwn { s with active := false }).1 rest,
            e.isInv = false ∨ e = Ev.errInv ∨ e = Ev.compInv → True := fun _ _ _ => trivial
        -- events: errInv :: scopeFired :: teardowns ++ rest-events
        simp only [fireOwn]
        simp only [guardOk, Ev.isClosing, Ev.isInv, List.cons_append]
        simp only [Bool.and_false, Bool.and_true, Bool.not_false, Bool.true_and]
        have htd : ∀ b, guardOk b ((s.teardowns.map Ev.tdRun) ++
            subRunEvents (fireOwn { s with active := false }).1 rest) = true := by
          intro b
          apply guardOk_of_no_inv
          intro e he
          simp only [List.mem_append, List.mem_map] at he
          rcases he with ⟨i, _, rfl⟩ | he
          · rfl
          · exact hrest e he
        simpa [fireOwn] using htd true
      | complete =>
        rw [subRunEvents, subRun_cons]
        simp only [subStep, h, if_pos]
        have hrest : ∀ e ∈ subRunEvents (fireOwn { s with active := false }).1 rest,
            e.isInv = false := by
          apply inactive_no_inv
          simp [fireOwn, SubState.isActive]
        simp only [fireOwn]
        simp only [guardOk, Ev.isClosing, Ev.isInv, List.cons_append]
        simp only [Bool.and_false, Bool.and_true, Bool.not_false, Bool.true_and]
        have htd : ∀ b, guardOk b ((s.teardowns.map Ev.tdRun) ++
            subRunEvents (fireOwn { s with active := false }).1 rest) = true := by
          intro b
          apply guardOk_of_no_inv
          intro e he
          simp only [List.mem_append, List.mem_map] at he
          rcases he with ⟨i, _, rfl⟩ | he
          · rfl
          · exact hrest e he
        simpa [fireOwn] using htd true
      | addTeardown i =>
        rw [subRunEvents, subRun_cons]
        simp only [subStep, h, if_pos]
        simpa [subRunEvents] using ih { s with teardowns := s.teardowns ++ [i] }
      | abortSignal =>
        by_cases hl : s.extLinked
        · rw [subRunEvents, subRun_cons]
          simp only [subStep, hl, if_pos]
          have hrest : ∀ e ∈ subRunEvents
              { s with mergedAborted := true, extLinked := false } rest,
              e.isInv = false := by
            apply inactive_no_inv
            simp [SubState.isActive]
          simp only [guardOk, Ev.isClosing, Ev.isInv, List.cons_append,
            List.singleton_append]
          simpa using guardOk_of_no_inv _ hrest true
        · rw [subRunEvents, subRun_cons]
          simp only [subStep, hl, if_neg, Bool.false_eq_true, not_false_iff]
          simpa [subRunEvents] using ih s
    · have h' : s.isActive = false := by simpa using h
      exact guardOk_of_no_inv _ (inactive_no_inv (op :: rest) s h') false

/-- A guard passing with the closed flag set means no invocation at
all occurs in the list. -/
lemma guardOk_true_no_inv (evs : List Ev) (h : guardOk true evs = true) :
    ∀ e ∈ evs, e.isInv = false := by
  induction evs with
  | nil => simp
  | cons e rest ih =>
    by_cases hc : e.isClosing
    · simp only [guardOk, hc, if_pos, Bool.true_and, Bool.and_eq_true,
        Bool.not_eq_true'] at h
      intro x hx
      rcases List.mem_cons.mp hx with rfl | hx
      · exact h.1
      · exact ih h.2 x hx
    · by_cases hi : e.isInv
      · simp [guardOk, hc, hi] at h
      · simp only [guardOk, hc, if_neg, hi, Bool.false_eq_true, not_false_iff,
          if_false] at h
        intro x hx
        rcases List.mem_cons.mp hx with rfl | hx
        · simpa using hi
        · exact ih h x hx

/-- After any closing event in a guarded list, no invocation occurs. -/
lemma guardOk_no_inv_after (pre : List Ev) (t : Ev) (post : List Ev) (b : Bool)
    (h : guardOk b (pre ++ t :: post) = true) (ht : t.isClosing = true) :
    ∀ e ∈ post, e.isInv = false := by
  induction pre generalizing b with
  | nil =>
    simp only [List.nil_append, guardOk, ht, if_pos, Bool.and_eq_true] at h
    exact guardOk_true_no_inv post h.2
  | cons x pre ih =>
    simp only [List.cons_append, guardOk] at h
    by_cases hc : x.isClosing
    · simp only [hc, if_pos, Bool.and_eq_true] at h
      exact ih true h.2
    · by_cases hi : x.isInv
      · simp only [hc, Bool.false_eq_true, if_false, hi, if_pos,
          Bool.and_eq_true, Bool.not_eq_true'] at h
        exact ih b h.2
      · simp only [hc, Bool.false_eq_true, if_false, hi] at h
        exact ih b h

/-- A guarded list contains at most one terminal invocation. -/
lemma guardOk_terminal_count (evs : List Ev) (h : guardOk false evs = true) :
    evs.count Ev.errInv + evs.count Ev.compInv ≤ 1 := by
  induction evs with
  | nil => simp
  | cons e rest ih =>
    by_cases hc : e.isClosing
    · simp only [guardOk, hc, if_pos, Bool.false_and, Bool.not_false,
        Bool.true_and] at h
      have hno : ∀ x ∈ rest, x.isInv = false := guardOk_true_no_inv rest h
      have he : rest.count Ev.errInv = 0 := by
        rw [List.count_eq_zero]
        intro hmem
        have := hno _ hmem
        simp [Ev.isInv] at this
      have hcmp : rest.count Ev.compInv = 0 := by
        rw [List.count_eq_zero]
        intro hmem
        have := hno _ hmem
        simp [Ev.isInv] at this
      cases e with
      | errInv => simp [List.count_cons, he, hcmp]
      | compInv => simp [List.count_cons, he, hcmp]
      | scopeFired => simp [List.count_cons, he, hcmp]
      | nextInv v => simp [Ev.isClosing] at hc
      | tdRun i => simp [Ev.isClosing] at hc
    · have hne : e ≠ Ev.errInv := by rintro rfl; simp [Ev.isClosing] at hc
      have hnc : e ≠ Ev.compInv := by rintro rfl; simp [Ev.isClosing] at hc
      by_cases hi : e.isInv
      · simp only [guardOk, hc, Bool.false_eq_true, if_false, hi, if_pos,
          Bool.not_false, Bool.true_and] at h
        simpa [List.count_cons, hne, hnc] using ih h
      · simp only [guardOk, hc, Bool.false_eq_true, if_false, hi] at h
        simpa [List.count_cons, hne, hnc] using ih h

/-- A linear subscribe procedure: the sequence of calls a producer
makes on the fresh `Subscriber` handed to it by `Observable.subscribe`
(observable.js 45-61), possibly ending in a synchronous `throw`. -/
inductive Prog where
  | next (v : Nat) (rest : Prog)
  | error (rest : Prog)
  | complete (rest : Prog)
  | addTeardown (i : Nat) (rest : Prog)
  | throwEx
  | done
  deriving Repr, DecidableEq

/-- Run a subscribe procedure against a subscriber.  The boolean in the
result records whether the procedure terminated by throwing. -/
def runProg (s : SubState) : Prog → SubState × List Ev × Bool
  | .next v rest =>
    let p := subStep s (.next v)
    let q := runProg p.1 rest
    (q.1, p.2 ++ q.2.1, q.2.2)
  | .error rest =>
    let p := subStep s .error
    let q := runProg p.1 rest
    (q.1, p.2 ++ q.2.1, q.2.2)
  | .complete rest =>
    let p := subStep s .complete
    let q := runProg p.1 rest
    (q.1, p.2 ++ q.2.1, q.2.2)
  | .addTeardown i rest =>
    let p := subStep s (.addTeardown i)
    let q := runProg p.1 rest
    (q.1, p.2 ++ q.2.1, q.2.2)
  | .throwEx => (s, [], true)
  | .done => (s, [], false)

/-- Translation of `Observable.subscribe` (observable.js 48-61): the
observer is normalized, a fresh `Subscriber` is constructed from
`options.signal` (`extAborted`), and then `this.start(subscriber)` is
invoked with no surrounding try/catch, so a synchronous throw from the
subscribe procedure leaves the method without touching the subscriber
(`.2.2 = true` marks the exception reaching the caller of
`subscribe`). -/
def subscribeJS (extAborted : Option Bool) (p : Prog) :
    SubState × List Ev × Bool :=
  runProg (newSubscriber extAborted) p

/-- C1.  For every interaction with a subscriber — any operations in any
order, with re-entrant calls flattened at the point where their handler
runs (sound because `#active` is cleared before any user code runs) —
the user error and complete handlers together run at most once, and no
handler (in particular `next`) runs after a terminal invocation or
after the cancellation scope fires. -/
theorem subscriber_at_most_one_terminal (l : List Op) :
    (subRunEvents (newSubscriber (some false)) l).count Ev.errInv +
      (subRunEvents (newSubscriber (some false)) l).count Ev.compInv ≤ 1 ∧
    ∀ pre t post,
      subRunEvents (newSubscriber (some false)) l = pre ++ t :: post →
      t.isClosing = true → ∀ e ∈ post, e.isInv = false := by
  constructor
  · exact guardOk_terminal_count _ (subRun_guardOk l _)
  · intro pre t post hsplit ht
    have := subRun_guardOk l (newSubscriber (some false))
    rw [hsplit] at this
    exact guardOk_no_inv_after pre t post false this ht

/-- Witness for C1 at the concrete interaction
`[next 5, complete, next 6, error]`: one terminal invocation, and the
event after the `complete` invocation is no handler invocation. -/
theorem subscriber_at_most_one_terminal_witness :
    (subRunEvents (newSubscriber (some false))
        [Op.next 5, Op.complete, Op.next 6, Op.error]).count Ev.errInv +
      (subRunEvents (newSubscriber (some false))
        [Op.next 5, Op.complete, Op.next 6, Op.error]).count Ev.compInv ≤ 1 ∧
    Ev.scopeFired.isInv = false := by
  refine ⟨(subscriber_at_most_one_terminal
    [Op.next 5, Op.complete, Op.next 6, Op.error]).1, ?_⟩
  exact (subscriber_at_most_one_terminal
      [Op.next 5, Op.complete, Op.next 6, Op.error]).2
    [Ev.nextInv 5] Ev.compInv [Ev.scopeFired] (by decide) (by decide)
    Ev.scopeFired (by decide)

/-- C5 (claim refuted by the code).  Teardowns are abort-event listeners
on the own controller (observable.js 653-661); the DOM dispatches them
in insertion order, so `[t1, t2, t3]` runs as `[t1, t2, t3]`, not
reversed; and an external cancellation aborts only the merged `#signal`,
never the own controller, so on external cancellation no teardown runs
at all. -/
theorem teardown_order_insertion_not_reverse :
    subRunEvents (newSubscriber (some false))
        [Op.addTeardown 1, Op.addTeardown 2, Op.addTeardown 3, Op.complete] =
      [Ev.compInv, Ev.scopeFired, Ev.tdRun 1, Ev.tdRun 2, Ev.tdRun 3] ∧
    subRunEvents (newSubscriber (some false))
        [Op.addTeardown 1, Op.addTeardown 2, Op.addTeardown 3, Op.abortSignal] =
      [Ev.scopeFired] := by
  constructor <;> rfl

/-- C2 (claim refuted by the code).  `Observable.subscribe`
(observable.js 48-61) invokes `this.start(subscriber)` outside any
try/catch: a subscribe procedure that throws synchronously propagates
the exception to the caller of `subscribe` (final `true`), and the
observer's error handler is never invoked (no events at all). -/
theorem subscribe_sync_throw_escapes :
    subscribeJS none Prog.throwEx = (newSubscriber none, [], true) ∧
    Ev.errInv ∉ (subscribeJS none Prog.throwEx).2.1 := by
  constructor
  · rfl
  · decide

/-- C4 (claim refuted by the code).  Subscribing with an
already-aborted `options.signal`: `useSignalAll`'s fallback registers an
abort listener on the aborted signal, which never fires, so the merged
`#signal` stays un-aborted, the subscriber is NOT closed
(`isActive = true`), and a value emitted synchronously by the subscribe
procedure IS delivered to the observer's next handler. -/
theorem subscribe_aborted_signal_still_delivers :
    (newSubscriber (some true)).isActive = true ∧
    (subscribeJS (some true) (Prog.next 1 Prog.done)).2.1 = [Ev.nextInv 1] := by
  constructor <;> rfl

/-- Events a source subscription delivers to an operator's relay
observer, in order. -/
inductive SrcEv where
  | next (v : Nat)
  | complete
  | error (e : Nat)
  deriving Repr, DecidableEq

/-- Events the operator's destination subscriber receives. -/
inductive DstEv where
  | next (v : Nat)
  | complete
  | error (e : Nat)
  deriving Repr, DecidableEq

/-- Translation of the relay observer of `take(count)`
(observable.js 145-171).  `remaining` is an `Int`, since the JS counter
is decremented below zero.  Per source value:
`remaining--; if (remaining >= 0) destination.next(value);
if (remaining === 0) destination.complete();`.
Completing or erroring the destination aborts `destination.signal`,
which the source subscription follows, so relaying stops there. -/
def takeGo (remaining : Int) : List SrcEv → List DstEv
  | [] => []
  | .next v :: rest =>
    let r := remaining - 1
    (if r ≥ 0 then [DstEv.next v] else []) ++
      (if r = 0 then [DstEv.complete] else takeGo r rest)
  | .complete :: _ => [DstEv.complete]
  | .error e :: _ => [DstEv.error e]

/-- A source that emits the values `vs` (and has not completed yet). -/
def srcOf (vs : List Nat) : List SrcEv := vs.map SrcEv.next

/-- C6 counterexample.  The claim says `take(0)` completes immediately
without forwarding any value; in the code `remaining === 0` is only
checked after a decrement, so with `count = 0` the destination is never
completed while the source keeps emitting: over a source that emitted
the value `5`, `take(0)` has produced no event at all, in particular no
completion. -/
theorem take_zero_not_immediate :
    takeGo 0 [SrcEv.next 5] = [] ∧
      DstEv.complete ∉ takeGo 0 [SrcEv.next 5] := by
  constructor
  · rfl
  · decide

lemma takeGo_nonpos (vs : List Nat) :
    ∀ m : Int, m ≤ 0 → takeGo m (srcOf vs) = [] ∧
      takeGo m (srcOf vs ++ [SrcEv.complete]) = [DstEv.complete] := by
  induction vs with
  | nil => intro m _; exact ⟨rfl, rfl⟩
  | cons v rest ih =>
    intro m hm
    have h1 : ¬ (m - 1 ≥ 0) := by omega
    have h2 : ¬ (m - 1 = 0) := by omega
    constructor
    · show takeGo m (SrcEv.next v :: srcOf rest) = []
      simp only [takeGo, h1, h2, if_neg, if_false]
      simpa using (ih (m - 1) (by omega)).1
    · show takeGo m (SrcEv.next v :: (srcOf rest ++ [SrcEv.complete])) =
        [DstEv.complete]
      simp only [takeGo, h1, h2, if_neg, if_false]
      simpa using (ih (m - 1) (by omega)).2

lemma takeGo_pos_within (vs : List Nat) :
    ∀ n : Nat, 1 ≤ n → n ≤ vs.length →
      takeGo (n : Int) (srcOf vs) =
        (vs.take n).map DstEv.next ++ [DstEv.complete] := by
  induction vs with
  | nil =>
    intro n h1 h2
    simp at h2
    omega
  | cons v rest ih =>
    intro n h1 h2
    simp only [List.length_cons] at h2
    show takeGo (n : Int) (SrcEv.next v :: srcOf rest) = _
    by_cases hn : n = 1
    · subst hn
      norm_num [takeGo]
    · have hge : (n : Int) - 1 ≥ 0 := by omega
      have hne : ¬ ((n : Int) - 1 = 0) := by omega
      simp only [takeGo, hge, if_pos, hne, if_false]
      have hcast : (n : Int) - 1 = ((n - 1 : Nat) : Int) := by omega
      rw [hcast, ih (n - 1) (by omega) (by omega)]
      have htk : (v :: rest).take n = v :: rest.take (n - 1) := by
        cases n with
        | zero => omega
        | succ k => simp
      simp [htk]

lemma takeGo_pos_beyond (vs : List Nat) :
    ∀ n : Nat, vs.length < n →
      takeGo (n : Int) (srcOf vs ++ [SrcEv.complete]) =
        vs.map DstEv.next ++ [DstEv.complete] := by
  induction vs with
  | nil => intro n _; rfl
  | cons v rest ih =>
    intro n hlen
    show takeGo (n : Int) (SrcEv.next v :: (srcOf rest ++ [SrcEv.complete])) = _
    have hge : (n : Int) - 1 ≥ 0 := by
      simp at hlen
      omega
    have hne : ¬ ((n : Int) - 1 = 0) := by
      simp at hlen
      omega
    simp only [takeGo, hge, if_pos, hne, if_false]
    have hcast : (n : Int) - 1 = ((n - 1 : Nat) : Int) := by
      simp at hlen
      omega
    rw [hcast, ih (n - 1) (by simp at hlen ⊢; omega)]
    simp

/-- C6 amended.  `take(n)` forwards exactly the first
`min(n, source length)` values; for `1 ≤ n ≤ length` it completes
immediately after forwarding the nth value, without waiting for source
completion; for `n` beyond the source length it forwards everything and
completes when the source completes; and `take(0)` forwards nothing but
completes only when the source completes, not immediately. -/
theorem take_forwards_min_count (n : Nat) (vs : List Nat) :
    (1 ≤ n → n ≤ vs.length →
      takeGo (n : Int) (srcOf vs) =
        (vs.take n).map DstEv.next ++ [DstEv.complete]) ∧
    (vs.length < n →
      takeGo (n : Int) (srcOf vs ++ [SrcEv.complete]) =
        vs.map DstEv.next ++ [DstEv.complete]) ∧
    takeGo 0 (srcOf vs) = [] ∧
    takeGo 0 (srcOf vs ++ [SrcEv.complete]) = [DstEv.complete] := by
  refine ⟨takeGo_pos_within vs n, takeGo_pos_beyond vs n, ?_, ?_⟩
  · exact (takeGo_nonpos vs 0 le_rfl).1
  · exact (takeGo_nonpos vs 0 le_rfl).2

/-- Witness for C6 amended: `take(3)` over the five-value source
`[1,2,3,4,5]` forwards exactly `1, 2, 3` and then completes, with the
source still emitting. -/
theorem take_forwards_min_count_witness :
    takeGo (3 : Int) (srcOf [1, 2, 3, 4, 5]) =
      [DstEv.next 1, DstEv.next 2, DstEv.next 3, DstEv.complete] := by
  have h := (take_forwards_min_count 3 [1, 2, 3, 4, 5]).1 (by decide) (by decide)
  simpa using h

/-- Translation of the `next` handler state of `reduce` with no initial
value (observable.js 380-415): `hasState` starts false
(`arguments.length >= 2` fails), `none` models the undefined `state`;
per value, if seeded, `state = reducer(state, value, index++)` (the
index only advances on reducer calls), else `state = value`.  On
`complete`, the promise resolves with the state.  The second component
lists the reducer invocations `(accumulator, value, index)` in order. -/
def reduceGo (f : Nat → Nat → Nat → Nat) (st : Option Nat) (i : Nat) :
    List Nat → Option Nat × List (Nat × Nat × Nat)
  | [] => (st, [])
  | v :: rest =>
    match st with
    | none => reduceGo f (some v) i rest
    | some acc =>
      let q := reduceGo f (some (f acc v i)) (i + 1) rest
      (q.1, (acc, v, i) :: q.2)

/-- `reduce(reducer)` called without an initial value, over a source
that emits `vs` and completes. -/
def reduceNoSeed (f : Nat → Nat → Nat → Nat) (vs : List Nat) :
    Option Nat × List (Nat × Nat × Nat) :=
  reduceGo f none 0 vs

/-- Left fold with an index threaded through, the specification shape
for seeded reduction. -/
def foldIdx (f : Nat → Nat → Nat → Nat) (acc : Nat) (i : Nat) :
    List Nat → Nat
  | [] => acc
  | v :: rest => foldIdx f (f acc v i) (i + 1) rest

lemma reduceGo_seeded (f : Nat → Nat → Nat → Nat) (l : List Nat) :
    ∀ acc i, (reduceGo f (some acc) i l).1 = some (foldIdx f acc i l) ∧
      (reduceGo f (some acc) i l).2.length = l.length := by
  induction l with
  | nil => intro acc i; exact ⟨rfl, rfl⟩
  | cons v rest ih =>
    intro acc i
    constructor
    · show (reduceGo f (some acc) i (v :: rest)).1 = _
      simp only [reduceGo, foldIdx]
      exact (ih (f acc v i) (i + 1)).1
    · show (reduceGo f (some acc) i (v :: rest)).2.length = _
      simp only [reduceGo, List.length_cons]
      rw [(ih (f acc v i) (i + 1)).2]

/-- C7.  `reduce` without an initial value over a non-empty source
`v :: rest`: the first value seeds the accumulator with no reducer
call (exactly `rest.length` reducer invocations occur), every
subsequent value is combined by `reducer(accumulator, value, index)`,
and the promise resolves to the final accumulator; in particular
`[5, 7, 9]` with addition resolves to `21`. -/
theorem reduce_no_seed_folds (f : Nat → Nat → Nat → Nat) (v : Nat)
    (rest : List Nat) :
    (reduceNoSeed f (v :: rest)).1 = some (foldIdx f v 0 rest) ∧
    (reduceNoSeed f (v :: rest)).2.length = rest.length ∧
    (reduceNoSeed (fun a w _ => a + w) [5, 7, 9]).1 = some 21 := by
  refine ⟨?_, ?_, by rfl⟩
  · show (reduceGo f (some v) 0 rest).1 = _
    rw [(reduceGo_seeded f rest v 0).1]
  · show (reduceGo f (some v) 0 rest).2.length = _
    exact (reduceGo_seeded f rest v 0).2

/-- Interleaved trace events of a `flatMap` subscription: outer-source
events and events of the (single) currently subscribed inner
observable. -/
inductive FmEv where
  | outerNext (v : Nat)
  | outerComplete
  | innerNext (v : Nat)
  | innerComplete
  deriving Repr, DecidableEq

/-- State of `flatMap`'s subscribe procedure (observable.js 196-258):
the FIFO `queue` of pending outer values, whether `innerAC` is defined
(an inner subscription is active), the `outerComplete` flag, and
whether the destination subscriber is still open (its signal, which
every participating subscription follows, has not aborted). -/
structure FmState where
  queue : List Nat
  innerActive : Bool
  outerDone : Bool
  destOpen : Bool
  deriving Repr, DecidableEq

/-- One trace event against `flatMap`'s handlers.  Outer events are
gated by the outer subscriber (closed once the outer completed or the
destination closed); inner events by the inner subscriber (closed once
no inner is active or the destination closed).

The outer `complete` handler is
`outerComplete = true; if (queue.length === 0) destination.complete();`
— note it does not check `innerAC`.  The inner `complete` handler is
`innerAC = undefined; if (queue.length > 0) startInner(queue.shift());
else if (outerComplete) destination.complete();`. -/
def fmStep (s : FmState) : FmEv → FmState × List DstEv
  | .outerNext v =>
    if s.destOpen && !s.outerDone then
      if s.innerActive then ({ s with queue := s.queue ++ [v] }, [])
      else ({ s with innerActive := true }, [])
    else (s, [])
  | .outerComplete =>
    if s.destOpen && !s.outerDone then
      if s.queue.isEmpty then
        ({ s with outerDone := true, destOpen := false }, [DstEv.complete])
      else ({ s with outerDone := true }, [])
    else (s, [])
  | .innerNext v =>
    if s.destOpen && s.innerActive then (s, [DstEv.next v]) else (s, [])
  | .innerComplete =>
    if s.destOpen && s.innerActive then
      match s.queue with
      | _ :: qs => ({ s with queue := qs }, [])
      | [] =>
        if s.outerDone then
          ({ s with innerActive := false, destOpen := false }, [DstEv.complete])
        else ({ s with innerActive := false }, [])
    else (s, [])

/-- Run a `flatMap` trace from a state, collecting destination events. -/
def fmRun (s : FmState) : List FmEv → FmState × List DstEv
  | [] => (s, [])
  | e :: rest =>
    let p := fmStep s e
    let q := fmRun p.1 rest
    (q.1, p.2 ++ q.2)

/-- Fresh `flatMap` subscription state. -/
def fmInit : FmState :=
  { queue := [], innerActive := false, outerDone := false, destOpen := true }

/-- C3 (claim refuted by the code).  Outer emits `1` (starting an inner
that is still active), then the outer completes with the queue empty:
the outer `complete` handler checks only the queue, so it completes the
destination at that very moment, although the inner is still active —
and the inner's later value `10` is consequently never delivered. -/
theorem flatMap_completes_while_inner_active :
    (fmRun fmInit [FmEv.outerNext 1]).1.innerActive = true ∧
    (fmRun fmInit [FmEv.outerNext 1]).1.queue = [] ∧
    (fmRun fmInit [FmEv.outerNext 1, FmEv.outerComplete]).2 =
      [DstEv.complete] ∧
    (fmRun fmInit [FmEv.outerNext 1, FmEv.outerComplete,
        FmEv.innerNext 10, FmEv.innerComplete]).2 = [DstEv.complete] := by
  refine ⟨rfl, rfl, rfl, rfl⟩

/-- Interleaved trace events of a `switchMap` subscription
(observable.js 456-509).  Inner subscriptions are numbered by the order
they are started (their generation `g`); an inner event names the
generation of the inner observable that produced it. -/
inductive SwEv where
  | outerNext (v : Nat)
  | outerComplete
  | outerError
  | innerNext (g : Nat) (v : Nat)
  | innerComplete (g : Nat)
  | innerError (g : Nat)
  deriving Repr, DecidableEq

/-- Destination events of `switchMap`; a delivered value records the
generation of the inner subscription it came from. -/
inductive SwOut where
  | next (g : Nat) (v : Nat)
  | complete
  | error
  deriving Repr, DecidableEq

/-- State of `switchMap`'s subscribe procedure.

* `started` — how many inner subscriptions have been started; they have
  generations `0 .. started - 1`.
* `current` — `some g` while `innerAC` is defined and belongs to the
  inner of generation `g`; `none` while `innerAC` is `undefined`.
* `abortedGens` — generations whose own `innerAC` was aborted by
  `innerAC?.abort()` when a newer outer value arrived.
* `doneGens` — generations whose inner subscriber reached its own
  terminal (`complete`/`error` ran on it).
* `outerDone` — the outer subscriber reached terminal.
* `destOpen` — the destination subscriber is open; its signal, which
  both the outer subscription and (via `useSignalAll`) every inner
  subscription follow, has not aborted. -/
structure SwState where
  started : Nat
  current : Option Nat
  abortedGens : List Nat
  doneGens : List Nat
  outerDone : Bool
  destOpen : Bool
  deriving Repr, DecidableEq


/-- Whether the inner subscriber of generation `g` is still open, i.e.
whether its handlers run when its producer calls it: the subscription
exists (`g < started`), its `innerAC` has not been aborted, its own
subscriber has not terminated, and the destination signal its merged
signal follows has not aborted. -/
def innerSubOpen (s : SwState) (g : Nat) : Bool :=
  decide (g < s.started) && decide (g ∉ s.abortedGens) &&
    decide (g ∉ s.doneGens) && s.destOpen

lemma innerSubOpen_iff (s : SwState) (g : Nat) :
    innerSubOpen s g = true ↔
      g < s.started ∧ g ∉ s.abortedGens ∧ g ∉ s.doneGens ∧
        s.destOpen = true := by
  simp [innerSubOpen, and_assoc]

/-- One trace event against `switchMap`'s handlers
(observable.js 461-507).  The outer `next` handler first aborts the
current `innerAC` (if any), then creates a fresh controller and
subscribes the projected inner; the outer `complete` handler sets
`outerComplete` and completes the destination only if `innerAC` is
undefined; the inner `complete` handler clears `innerAC` and completes
the destination if the outer already completed. -/
def swStep (s : SwState) : SwEv → SwState × List SwOut
  | .outerNext _ =>
    if s.destOpen && !s.outerDone then
      let ab := match s.current with
        | some g => s.abortedGens ++ [g]
        | none => s.abortedGens
      ({ s with started := s.started + 1, current := some s.started,
                abortedGens := ab }, [])
    else (s, [])
  | .outerComplete =>
    if s.destOpen && !s.outerDone then
      match s.current with
      | none => ({ s with outerDone := true, destOpen := false }, [SwOut.complete])
      | some _ => ({ s with outerDone := true }, [])
    else (s, [])
  | .outerError =>
    if s.destOpen && !s.outerDone then
      ({ s with outerDone := true, destOpen := false }, [SwOut.error])
    else (s, [])
  | .innerNext g v =>
    if innerSubOpen s g then (s, [SwOut.next g v]) else (s, [])
  | .innerComplete g =>
    if innerSubOpen s g then
      let s1 := { s with doneGens := s.doneGens ++ [g], current := none }
      if s.outerDone then ({ s1 with destOpen := false }, [SwOut.complete])
      else (s1, [])
    else (s, [])
  | .innerError g =>
    if innerSubOpen s g then
      ({ s with doneGens := s.doneGens ++ [g], destOpen := false }, [SwOut.error])
    else (s, [])

/-- Run a `switchMap` trace from a state. -/
def swRun (s : SwState) : List SwEv → SwState × List SwOut
  | [] => (s, [])
  | e :: rest =>
    let p := swStep s e
    let q := swRun p.1 rest
    (q.1, p.2 ++ q.2)

/-- Final state of a `switchMap` trace. -/
def swRunState (s : SwState) (l : List SwEv) : SwState := (swRun s l).1

/-- Fresh `switchMap` subscription state. -/
def swInit : SwState :=
  { started := 0, current := none, abortedGens := [], doneGens := [],
    outerDone := false, destOpen := true }

/-- The generation an inner trace event belongs to. -/
def genOf : SwEv → Option Nat
  | .innerNext g _ => some g
  | .innerComplete g => some g
  | .innerError g => some g
  | _ => none

/-- Reachability invariant of `switchMap`: any started generation that
is neither aborted nor terminated is the current one, the current
generation is the most recently started, and the bookkeeping lists only
name started generations. -/
def SwInv (s : SwState) : Prop :=
  (∀ g, g < s.started → g ∉ s.abortedGens → g ∉ s.doneGens →
    s.current = some g) ∧
  (∀ g, s.current = some g → g + 1 = s.started) ∧
  (∀ g ∈ s.abortedGens, g < s.started) ∧
  (∀ g ∈ s.doneGens, g < s.started)

lemma swInv_init : SwInv swInit := by
  refine ⟨?_, ?_, ?_, ?_⟩ <;> intro g <;> simp [swInit]

lemma swInv_of_fields (s t : SwState) (hst : t.started = s.started)
    (hcur : t.current = s.current) (hab : t.abortedGens = s.abortedGens)
    (hdn : t.doneGens = s.doneGens) (h : SwInv s) : SwInv t := by
  unfold SwInv at h ⊢
  rw [hst, hcur, hab, hdn]
  exact h

lemma swInv_step (s : SwState) (e : SwEv) (h : SwInv s) :
    SwInv (swStep s e).1 := by
  obtain ⟨h1, h2, h3, h4⟩ := h
  cases e with
  | outerNext v =>
    by_cases hg : s.destOpen && !s.outerDone
    · cases hc : s.current with
      | none =>
        simp only [swStep, hg, if_pos, hc]
        refine ⟨?_, ?_, ?_, ?_⟩
        · intro g hlt hab hdn
          rcases Nat.lt_succ_iff_lt_or_eq.mp hlt with hlt2 | rfl
          · exact absurd (h1 g hlt2 hab hdn) (by simp [hc])
          · rfl
        · intro g hg2
          have hgs : g = s.started := by simpa using hg2.symm
          show g + 1 = s.started + 1
          omega
        · intro g hg2
          exact Nat.lt_succ_of_lt (h3 g hg2)
        · intro g hg2
          exact Nat.lt_succ_of_lt (h4 g hg2)
      | some gOld =>
        simp only [swStep, hg, if_pos, hc]
        refine ⟨?_, ?_, ?_, ?_⟩
        · intro g hlt hab hdn
          simp only [List.mem_append, List.mem_singleton, not_or] at hab
          rcases Nat.lt_succ_iff_lt_or_eq.mp hlt with hlt2 | rfl
          · exfalso
            have hcg := h1 g hlt2 hab.1 hdn
            rw [hc] at hcg
            exact hab.2 (Option.some_inj.mp hcg.symm)
          · rfl
        · intro g hg2
          have hgs : g = s.started := by simpa using hg2.symm
          show g + 1 = s.started + 1
          omega
        · intro g hg2
          simp only [List.mem_append, List.mem_singleton] at hg2
          rcases hg2 with hg2 | rfl
          · exact Nat.lt_succ_of_lt (h3 g hg2)
          · have hcg := h2 _ hc
            exact Nat.lt_succ_of_lt (by omega)
        · intro g hg2
          exact Nat.lt_succ_of_lt (h4 g hg2)
    · refine swInv_of_fields s _ ?_ ?_ ?_ ?_ ⟨h1, h2, h3, h4⟩ <;>
        simp [swStep, hg]
  | outerComplete =>
    refine swInv_of_fields s _ ?_ ?_ ?_ ?_ ⟨h1, h2, h3, h4⟩ <;>
      · by_cases hg : s.destOpen && !s.outerDone
        · cases hc : s.current <;> simp [swStep, hg, hc]
        · simp [swStep, hg]
  | outerError =>
    refine swInv_of_fields s _ ?_ ?_ ?_ ?_ ⟨h1, h2, h3, h4⟩ <;>
      · by_cases hg : s.destOpen && !s.outerDone
        · simp [swStep, hg]
        · simp [swStep, hg]
  | innerNext g v =>
    refine swInv_of_fields s _ ?_ ?_ ?_ ?_ ⟨h1, h2, h3, h4⟩ <;>
      · by_cases hg : innerSubOpen s g
        · simp [swStep, hg]
        · simp [swStep, hg]
  | innerComplete g =>
    by_cases hg : innerSubOpen s g
    · obtain ⟨hlt, hab, hdn, hdo⟩ := (innerSubOpen_iff s g).mp hg
      have hcur : s.current = some g := h1 g hlt hab hdn
      have hm1 : ∀ g2, g2 < s.started → g2 ∉ s.abortedGens →
          g2 ∉ s.doneGens ++ [g] → (none : Option Nat) = some g2 := by
        intro g2 hlt2 hab2 hdn2
        simp only [List.mem_append, List.mem_singleton, not_or] at hdn2
        exfalso
        have hcg := h1 g2 hlt2 hab2 hdn2.1
        rw [hcur] at hcg
        exact hdn2.2 (Option.some_inj.mp hcg.symm)
      have hm2 : ∀ g2 ∈ s.doneGens ++ [g], g2 < s.started := by
        intro g2 hg2
        simp only [List.mem_append, List.mem_singleton] at hg2
        rcases hg2 with hg2 | rfl
        · exact h4 g2 hg2
        · exact hlt
      by_cases ho : s.outerDone
      · simp only [swStep, hg, if_pos, ho]
        exact ⟨hm1, by simp, h3, hm2⟩
      · simp only [swStep, hg, if_pos, ho, Bool.false_eq_true, not_false_iff,
          if_neg]
        exact ⟨hm1, by simp, h3, hm2⟩
    · refine swInv_of_fields s _ ?_ ?_ ?_ ?_ ⟨h1, h2, h3, h4⟩ <;>
        simp [swStep, hg]
  | innerError g =>
    by_cases hg : innerSubOpen s g
    · obtain ⟨hlt, hab, hdn, hdo⟩ := (innerSubOpen_iff s g).mp hg
      have hcur : s.current = some g := h1 g hlt hab hdn
      simp only [swStep, hg, if_pos]
      refine ⟨?_, h2, h3, ?_⟩
      · intro g2 hlt2 hab2 hdn2
        simp only [List.mem_append, List.mem_singleton, not_or] at hdn2
        exfalso
        have hcg := h1 g2 hlt2 hab2 hdn2.1
        rw [hcur] at hcg
        exact hdn2.2 (Option.some_inj.mp hcg.symm)
      · intro g2 hg2
        simp only [List.mem_append, List.mem_singleton] at hg2
        rcases hg2 with hg2 | rfl
        · exact h4 g2 hg2
        · exact hlt
    · refine swInv_of_fields s _ ?_ ?_ ?_ ?_ ⟨h1, h2, h3, h4⟩ <;>
        simp [swStep, hg]

lemma swInv_run (l : List SwEv) : SwInv (swRunState swInit l) := by
  suffices h : ∀ s, SwInv s → SwInv (swRunState s l) from h swInit swInv_init
  induction l with
  | nil => intro s hs; exact hs
  | cons e rest ih =>
    intro s hs
    exact ih (swStep s e).1 (swInv_step s e hs)

lemma swRunState_append (s : SwState) (l1 l2 : List SwEv) :
    swRunState s (l1 ++ l2) = swRunState (swRunState s l1) l2 := by
  induction l1 generalizing s with
  | nil => rfl
  | cons e rest ih =>
    show swRunState (swStep s e).1 (rest ++ l2) = _
    exact ih (swStep s e).1

lemma sw_aborted_mono (s : SwState) (e : SwEv) (g : Nat)
    (h : g ∈ s.abortedGens) : g ∈ (swStep s e).1.abortedGens := by
  cases e with
  | outerNext v =>
    by_cases hg : s.destOpen && !s.outerDone
    · cases hc : s.current with
      | none => simpa [swStep, hg, hc] using h
      | some gOld =>
        simp only [swStep, hg, if_pos, hc]
        simp [h]
    · simpa [swStep, hg] using h
  | outerComplete =>
    by_cases hg : s.destOpen && !s.outerDone
    · cases hc : s.current with
      | none => simpa [swStep, hg, hc] using h
      | some gOld => simpa [swStep, hg, hc] using h
    · simpa [swStep, hg] using h
  | outerError =>
    by_cases hg : s.destOpen && !s.outerDone
    · simpa [swStep, hg] using h
    · simpa [swStep, hg] using h
  | innerNext g2 v =>
    by_cases hg : innerSubOpen s g2
    · simpa [swStep, hg] using h
    · simpa [swStep, hg] using h
  | innerComplete g2 =>
    by_cases hg : innerSubOpen s g2
    · by_cases ho : s.outerDone
      · simpa [swStep, hg, ho] using h
      · simpa [swStep, hg, ho] using h
    · simpa [swStep, hg] using h
  | innerError g2 =>
    by_cases hg : innerSubOpen s g2
    · simpa [swStep, hg] using h
    · simpa [swStep, hg] using h

lemma sw_aborted_mono_run (s : SwState) (l : List SwEv) (g : Nat)
    (h : g ∈ s.abortedGens) : g ∈ (swRunState s l).abortedGens := by
  induction l generalizing s with
  | nil => exact h
  | cons e rest ih => exact ih (swStep s e).1 (sw_aborted_mono s e g h)

/-- C9.  For `switchMap`:
1. at the instant a new outer value arrives while the inner of
   generation `g` is current, that inner's controller is aborted;
2. once a generation has been aborted, any of its events — next value,
   error or completion — processed at any later point is a complete
   no-op: no destination delivery and no state change;
3. every value that IS delivered to the destination comes from the most
   recently started inner (`g + 1 = started`). -/
theorem switchMap_cancels_superseded_inner :
    (∀ (pre : List SwEv) (v g : Nat),
      (swRunState swInit pre).current = some g →
      (swRunState swInit pre).destOpen = true →
      (swRunState swInit pre).outerDone = false →
      g ∈ (swRunState swInit (pre ++ [SwEv.outerNext v])).abortedGens) ∧
    (∀ (pre mid : List SwEv) (e : SwEv) (g : Nat),
      g ∈ (swRunState swInit pre).abortedGens →
      genOf e = some g →
      swStep (swRunState swInit (pre ++ mid)) e =
        (swRunState swInit (pre ++ mid), [])) ∧
    (∀ (pre : List SwEv) (e : SwEv) (g v : Nat),
      SwOut.next g v ∈ (swStep (swRunState swInit pre) e).2 →
      g + 1 = (swRunState swInit pre).started) := by
  refine ⟨?_, ?_, ?_⟩
  · intro pre v g hcur hopen hdone
    rw [swRunState_append]
    show g ∈ ((swStep (swRunState swInit pre) (SwEv.outerNext v)).1).abortedGens
    simp only [swStep, hopen, hdone, Bool.not_false, Bool.and_self, if_pos, hcur]
    simp
  · intro pre mid e g hab hgen
    have hab2 : g ∈ (swRunState swInit (pre ++ mid)).abortedGens := by
      rw [swRunState_append]
      exact sw_aborted_mono_run _ mid g hab
    have hclosed : innerSubOpen (swRunState swInit (pre ++ mid)) g = false := by
      simp [innerSubOpen, hab2]
    cases e with
    | innerNext g2 v =>
      have : g2 = g := by simpa [genOf] using hgen
      subst this
      simp [swStep, hclosed]
    | innerComplete g2 =>
      have : g2 = g := by simpa [genOf] using hgen
      subst this
      simp [swStep, hclosed]
    | innerError g2 =>
      have : g2 = g := by simpa [genOf] using hgen
      subst this
      simp [swStep, hclosed]
    | outerNext v => simp [genOf] at hgen
    | outerComplete => simp [genOf] at hgen
    | outerError => simp [genOf] at hgen
  · intro pre e g v hmem
    obtain ⟨h1, h2, h3, h4⟩ := swInv_run pre
    cases e with
    | innerNext g2 v2 =>
      by_cases hg : innerSubOpen (swRunState swInit pre) g2
      · simp only [swStep, hg, if_pos, List.mem_singleton, SwOut.next.injEq] at hmem
        obtain ⟨rfl, rfl⟩ := hmem
        obtain ⟨hlt, hab, hdn, hdo⟩ := (innerSubOpen_iff _ g).mp hg
        exact h2 g (h1 g hlt hab hdn)
      · simp [swStep, hg] at hmem
    | innerComplete g2 =>
      by_cases hg : innerSubOpen (swRunState swInit pre) g2
      · by_cases ho : (swRunState swInit pre).outerDone
        · simp [swStep, hg, ho] at hmem
        · simp [swStep, hg, ho] at hmem
      · simp [swStep, hg] at hmem
    | innerError g2 =>
      by_cases hg : innerSubOpen (swRunState swInit pre) g2
      · simp [swStep, hg] at hmem
      · simp [swStep, hg] at hmem
    | outerNext v2 =>
      by_cases hg : (swRunState swInit pre).destOpen &&
          !(swRunState swInit pre).outerDone
      · simp [swStep, hg] at hmem
      · simp [swStep, hg] at hmem
    | outerComplete =>
      by_cases hg : (swRunState swInit pre).destOpen &&
          !(swRunState swInit pre).outerDone
      · cases hc : (swRunState swInit pre).current with
        | none => simp [swStep, hg, hc] at hmem
        | some gc => simp [swStep, hg, hc] at hmem
      · simp [swStep, hg] at hmem
    | outerError =>
      by_cases hg : (swRunState swInit pre).destOpen &&
          !(swRunState swInit pre).outerDone
      · simp [swStep, hg] at hmem
      · simp [swStep, hg] at hmem

/-- Witness for C9: outer emits `1` (starting inner 0) then `2`
(aborting inner 0, starting inner 1); inner 0 is aborted at that
instant, its late value `10` is a no-op, and a value delivered by
inner 1 came from the most recently started generation. -/
theorem switchMap_cancels_superseded_inner_witness :
    0 ∈ (swRunState swInit ([SwEv.outerNext 1] ++ [SwEv.outerNext 2])).abortedGens ∧
    swStep (swRunState swInit ([SwEv.outerNext 1, SwEv.outerNext 2] ++ []))
        (SwEv.innerNext 0 10) =
      (swRunState swInit ([SwEv.outerNext 1, SwEv.outerNext 2] ++ []), []) ∧
    1 + 1 = (swRunState swInit [SwEv.outerNext 1, SwEv.outerNext 2]).started := by
  refine ⟨?_, ?_, ?_⟩
  · exact switchMap_cancels_superseded_inner.1 [SwEv.outerNext 1] 2 0
      (by decide) (by decide) (by decide)
  · exact switchMap_cancels_superseded_inner.2.1 [SwEv.outerNext 1, SwEv.outerNext 2]
      [] (SwEv.innerNext 0 10) 0 (by decide) (by decide)
  · exact switchMap_cancels_superseded_inner.2.2
      [SwEv.outerNext 1, SwEv.outerNext 2] (SwEv.innerNext 1 20) 1 20 (by decide)

/-- State of the async-iterator pull bridge (observable.js 537-617).

* `acStarted` — the lazily created internal `AbortController` exists
  (the internal subscription was made on the first pull).
* `buffer` — already-produced, not yet pulled values.
* `pending` — the length of `deferred`, the queue of pull requests
  (resolve/reject pairs) still unsettled.
* `hasError`, `errVal` — the recorded error flag and value.
* `isComplete` — the completion flag; in the source it is set only by
  the iterator's own `return()` method, never by the subscription.
* `srcDone` — the internal subscription's `Subscriber` reached its own
  terminal state (after the source's `complete`/`error` the subscriber
  is closed and delivers nothing further). -/
structure ItState where
  acStarted : Bool
  buffer : List Nat
  pending : Nat
  hasError : Bool
  errVal : Nat
  isComplete : Bool
  srcDone : Bool
  deriving Repr, DecidableEq

/-- Fresh pull-bridge state, as set up at the top of
`[Symbol.asyncIterator]()`. -/
def itInit : ItState :=
  { acStarted := false, buffer := [], pending := 0, hasError := false,
    errVal := 0, isComplete := false, srcDone := false }

/-- How a pull (a call to the iterator's `next()`) returns. -/
inductive PullRes where
  | value (v : Nat)
  | rejected (e : Nat)
  | done
  | pending
  deriving Repr, DecidableEq

/-- Settlement of a previously pending pull request, performed by the
subscription handlers. -/
inductive Settle where
  | resolved (v : Nat)
  | rejectedS (e : Nat)
  deriving Repr, DecidableEq

/-- One pull, observable.js 545-590: if the buffer has a value, resolve
with it; else if `hasError`, reject with the recorded error; else if
`isComplete`, resolve done; else (subscribing first if no controller
exists yet) push a new deferred pull request and leave it pending. -/
def pullStep (s : ItState) : ItState × PullRes :=
  match s.buffer with
  | v :: rest => ({ s with buffer := rest }, PullRes.value v)
  | [] =>
    if s.hasError then (s, PullRes.rejected s.errVal)
    else if s.isComplete then (s, PullRes.done)
    else ({ s with acStarted := true, pending := s.pending + 1 },
      PullRes.pending)

/-- One source event against the internal subscription's observer
(observable.js 562-582).  The `next` handler settles the oldest pending
pull or buffers the value; the `error` handler records the error when
the buffer is non-empty and otherwise rejects every pending pull — when
there is no pending pull, it records nothing; the `complete` handler
has an empty body and records nothing at all.  The events reach the
handlers through the internal `Subscriber`, so nothing is delivered
once it has terminated (`srcDone`). -/
def itSrcStep (s : ItState) : SrcEv → ItState × List Settle
  | .next v =>
    if !s.srcDone then
      if s.pending > 0 then
        ({ s with pending := s.pending - 1 }, [Settle.resolved v])
      else ({ s with buffer := s.buffer ++ [v] }, [])
    else (s, [])
  | .error e =>
    if !s.srcDone then
      if s.buffer.isEmpty then
        ({ s with srcDone := true, pending := 0 },
          List.replicate s.pending (Settle.rejectedS e))
      else ({ s with srcDone := true, hasError := true, errVal := e }, [])
    else (s, [])
  | .complete =>
    if !s.srcDone then ({ s with srcDone := true }, []) else (s, [])

/-- Interleaved operations on the bridge: pulls by the consumer and
events from the source. -/
inductive ItOp where
  | pull
  | src (e : SrcEv)
  deriving Repr, DecidableEq

/-- Run a sequence of bridge operations, collecting the immediate
result of each pull in order. -/
def itRun (s : ItState) : List ItOp → ItState × List PullRes
  | [] => (s, [])
  | .pull :: rest =>
    let p := pullStep s
    let q := itRun p.1 rest
    (q.1, p.2 :: q.2)
  | .src e :: rest =>
    let p := itSrcStep s e
    let q := itRun p.1 rest
    (q.1, q.2)

/-- A bridge state from which no pull can ever settle: empty buffer, no
recorded error, no recorded completion, and a source that already
terminated so the subscription will never deliver anything again. -/
def ItStuck (s : ItState) : Prop :=
  s.buffer = [] ∧ s.hasError = false ∧ s.isComplete = false ∧
    s.srcDone = true

lemma itStuck_forever (s : ItState) (h : ItStuck s) :
    (pullStep s).2 = PullRes.pending ∧ ItStuck (pullStep s).1 ∧
      ∀ e, itSrcStep s e = (s, []) := by
  obtain ⟨hb, he, hc, hd⟩ := h
  refine ⟨?_, ?_, ?_⟩
  · simp [pullStep, hb, he, hc]
  · simp [pullStep, hb, he, hc, ItStuck, hd]
  · intro e
    cases e <;> simp [itSrcStep, hd]

/-- C8 (claim refuted by the code).  The subscription's `complete`
handler has an empty body, so no source event ever records completion
(`isComplete` is untouched); concretely, after a pull, a value, the
source completing, and the value being pulled out... the run
`[pull, next 1, complete, pull]` leaves `isComplete = false` and the
second pull — made after the buffered values were drained — returns
`pending`, and the state is stuck: every further pull stays pending
instead of returning the done signal. -/
theorem pull_bridge_completion_never_recorded :
    (∀ (s : ItState) (e : SrcEv), (itSrcStep s e).1.isComplete = s.isComplete) ∧
    (itRun itInit [ItOp.pull, ItOp.src (SrcEv.next 1), ItOp.src SrcEv.complete,
        ItOp.pull]).2 = [PullRes.pending, PullRes.pending] ∧
    (itRun itInit [ItOp.pull, ItOp.src (SrcEv.next 1), ItOp.src SrcEv.complete,
        ItOp.pull]).1.isComplete = false ∧
    ItStuck { acStarted := true, buffer := [], pending := 1,
              hasError := false, errVal := 0, isComplete := false,
              srcDone := true } := by
  refine ⟨?_, rfl, rfl, ?_⟩
  · intro s e
    cases e with
    | next v =>
      by_cases hd : s.srcDone
      · simp [itSrcStep, hd]
      · by_cases hp : s.pending > 0 <;> simp [itSrcStep, hd, hp]
    | error e2 =>
      by_cases hd : s.srcDone
      · simp [itSrcStep, hd]
      · by_cases hb : s.buffer.isEmpty <;> simp [itSrcStep, hd, hb]
    | complete =>
      by_cases hd : s.srcDone <;> simp [itSrcStep, hd]
  · exact ⟨rfl, rfl, rfl, rfl⟩

/-- C10.  If the source errors when the buffer is empty and no pull is
pending, the error handler's else-branch rejects each of the zero
pending pulls and records nothing: `hasError` stays unset, no
settlement happens, and the state is stuck — every later pull returns
`pending` (neither rejecting nor resolving), forever, because the
subscription is closed and delivers nothing more.  When instead the
buffer is non-empty, the error IS recorded for later pulls. -/
theorem pull_bridge_error_dropped_when_empty (s : ItState) (e : Nat) :
    (s.srcDone = false → s.buffer = [] → s.pending = 0 →
      s.hasError = false → s.isComplete = false →
      (itSrcStep s (SrcEv.error e)).1.hasError = false ∧
      (itSrcStep s (SrcEv.error e)).2 = [] ∧
      ItStuck (itSrcStep s (SrcEv.error e)).1 ∧
      (pullStep (itSrcStep s (SrcEv.error e)).1).2 = PullRes.pending) ∧
    (s.srcDone = false → s.buffer ≠ [] →
      (itSrcStep s (SrcEv.error e)).1.hasError = true ∧
      (itSrcStep s (SrcEv.error e)).1.errVal = e) := by
  constructor
  · intro hd hb hp he hc
    have hstep : itSrcStep s (SrcEv.error e) =
        ({ s with srcDone := true, pending := 0 }, []) := by
      simp [itSrcStep, hd, hb, hp]
    rw [hstep]
    have hstuck : ItStuck ({ s with srcDone := true, pending := 0 } : ItState) :=
      ⟨hb, he, hc, by simp⟩
    exact ⟨he, rfl, hstuck, (itStuck_forever _ hstuck).1⟩
  · intro hd hb
    have hbe : s.buffer.isEmpty = false := by
      simpa [List.isEmpty_iff] using hb
    simp [itSrcStep, hd, hbe]

/-- Witness for C10 at the initial bridge state after the subscription
started, and at a state with a buffered value. -/
theorem pull_bridge_error_dropped_when_empty_witness :
    (itSrcStep { itInit with acStarted := true } (SrcEv.error 7)).1.hasError
        = false ∧
    (pullStep (itSrcStep { itInit with acStarted := true }
        (SrcEv.error 7)).1).2 = PullRes.pending ∧
    (itSrcStep { itInit with acStarted := true, buffer := [3] }
        (SrcEv.error 7)).1.hasError = true := by
  have h1 := (pull_bridge_error_dropped_when_empty
    { itInit with acStarted := true } 7).1 rfl rfl rfl rfl rfl
  have h2 := (pull_bridge_error_dropped_when_empty
    { itInit with acStarted := true, buffer := [3] } 7).2 rfl (by simp)
  exact ⟨h1.1, h1.2.2.2, h2.1⟩

end Obs
